import Mathlib

/-!
Verification of the real-time synchronization engine of the two-player
coin-collector game (src/server.py, src/client.py).

The embedding is shallow:
* client.py's snapshot buffer and interpolator are modelled over ℚ
  (the source uses Python floats; we idealize to exact arithmetic);
* server.py's simulation, session and entity-store logic are modelled
  over ℝ, because the movement integration divides by a Euclidean norm
  (Python's `** 0.5`), which we embed as Real.sqrt;
* Python dicts are modelled as insertion-ordered association lists with
  overwrite-in-place semantics, matching CPython's documented behaviour;
* randomness (spawn positions, colors) and wall-clock readings are passed
  in as explicit parameters;
* the `asyncio` cooperative scheduling relevant to the tick loop is
  modelled by the per-iteration suspension time of the loop body.
-/

namespace Client

/-- Wire view of a player inside a `state_update` message
(server.py `Player.to_dict`, consumed by client.py). -/
structure PView where
  id : String
  x : ℚ
  y : ℚ
  score : ℕ
  color : ℕ × ℕ × ℕ
deriving DecidableEq

/-- Wire view of a coin inside a `state_update` message. -/
structure CView where
  id : String
  x : ℚ
  y : ℚ
deriving DecidableEq

/-- One buffered `state_update` message (client.py line 66-69). -/
structure Snapshot where
  timestamp : ℚ
  players : List PView
  coins : List CView
deriving DecidableEq

/-- The value produced by `get_interpolated_state`: a players dict
(modelled as an insertion-ordered association list) plus a coin list. -/
structure RenderState where
  players : List (String × PView)
  coins : List CView
deriving DecidableEq

/-- client.py lines 66-69: append an incoming snapshot, then pop the
oldest entry when the buffer length exceeds 40. -/
def pushSnapshot (buf : List Snapshot) (s : Snapshot) : List Snapshot :=
  let b := buf ++ [s]
  if b.length > 40 then b.drop 1 else b

/-- Python dict insertion for the comprehension `{p['id']: p for p in ...}`:
an existing key is overwritten in place, a new key is appended. -/
def dictInsertP (m : List (String × PView)) (p : PView) : List (String × PView) :=
  if m.any (fun kv => kv.1 == p.id) then
    m.map (fun kv => if kv.1 == p.id then (kv.1, p) else kv)
  else m ++ [(p.id, p)]

/-- The dict comprehension `{p['id']: p for p in players}`. -/
def dictOfPlayers (ps : List PView) : List (String × PView) :=
  ps.foldl dictInsertP []

/-- Python dict lookup on the association-list model. -/
def lookupDict (m : List (String × PView)) (k : String) : Option PView :=
  (m.find? (fun kv => kv.1 == k)).map Prod.snd

/-- The pass-through conversion `{"players": {p['id']: p ...}, "coins": ...}`
used by every non-interpolating branch of `get_interpolated_state`. -/
def snapshotToRender (s : Snapshot) : RenderState :=
  { players := dictOfPlayers s.players, coins := s.coins }

/-- client.py lines 91-96: scanning from the most recently appended
snapshot backwards, find the newest snapshot whose timestamp is ≤
`render_time` together with the element immediately after it in the
buffer (if any). -/
def findBracket : List Snapshot → ℚ → Option (Snapshot × Option Snapshot)
  | [], _ => none
  | s :: rest, rt =>
    match findBracket rest rt with
    | some r => some r
    | none => if s.timestamp ≤ rt then some (s, rest.head?) else none

/-- client.py lines 116-129, the body of the per-player interpolation
loop for one id of `next`'s dict: an id present in `prev`'s dict is
linearly interpolated with score and color carried from `next`; an id
absent from `prev` is passed through unmodified. -/
def interpOne (prevDict : List (String × PView)) (alpha : ℚ)
    (pid : String) (np : PView) : PView :=
  match lookupDict prevDict pid with
  | some pp =>
    { id := pid,
      x := pp.x + (np.x - pp.x) * alpha,
      y := pp.y + (np.y - pp.y) * alpha,
      score := np.score,
      color := np.color }
  | none => np

/-- client.py lines 111-131: the per-player interpolation loop.  The
iteration is over the dict built from `next`'s players. -/
def interpPlayers (prevPs nextPs : List PView) (alpha : ℚ) : List (String × PView) :=
  (dictOfPlayers nextPs).map (fun kv =>
    (kv.1, interpOne (dictOfPlayers prevPs) alpha kv.1 kv.2))

/-- client.py lines 78-131, `GameClient.get_interpolated_state`.
`render_time` (= now − INTERPOLATION_OFFSET in the source) and the
initial `current_display_state` are passed as parameters.  The
`buf.head?` match in the no-prev branch is total; its `none` arm is
unreachable because that branch runs only when the buffer has ≥ 2
elements. -/
def get_interpolated_state (buf : List Snapshot) (render_time : ℚ)
    (current_display_state : RenderState) : RenderState :=
  if buf.length < 2 then
    match buf.getLast? with
    | some latest => snapshotToRender latest
    | none => current_display_state
  else
    match findBracket buf render_time with
    | none =>
      match buf.head? with
      | some s => snapshotToRender s
      | none => current_display_state
    | some (prev, none) => snapshotToRender prev
    | some (prev, some nxt) =>
      let time_diff := nxt.timestamp - prev.timestamp
      let alpha := if time_diff = 0 then 0 else (render_time - prev.timestamp) / time_diff
      { players := interpPlayers prev.players nxt.players alpha,
        coins := nxt.coins }

/-- An arbitrary concrete snapshot, used in witnesses. -/
def snapEx : Snapshot := { timestamp := 0, players := [], coins := [] }

/-- A full 40-element buffer, used in the C8 witness. -/
def buf40 : List Snapshot :=
  (List.range 40).map (fun (i : ℕ) => { timestamp := (i : ℚ), players := [], coins := [] })

/-- The default empty render state (client.py line 26). -/
def emptyRender : RenderState := { players := [], coins := [] }

/-- Witness data: player A in the older snapshot. -/
def pA0 : PView := { id := "A", x := 0, y := 0, score := 0, color := (1, 2, 3) }

/-- Witness data: player A in the newer snapshot. -/
def pA1 : PView := { id := "A", x := 10, y := 0, score := 1, color := (1, 2, 3) }

/-- Witness data: player B, present only in the newer snapshot. -/
def pB : PView := { id := "B", x := 7, y := 7, score := 0, color := (4, 5, 6) }

/-- Witness data: the older bracketing snapshot (timestamp 0). -/
def prevEx : Snapshot := { timestamp := 0, players := [pA0], coins := [] }

/-- Witness data: the newer bracketing snapshot (timestamp 1). -/
def nxtEx : Snapshot :=
  { timestamp := 1, players := [pA1, pB], coins := [{ id := "c0", x := 3, y := 4 }] }

end Client

noncomputable section

namespace Server

/-- server.py line 10. -/
def GAME_WIDTH : ℝ := 500

/-- server.py line 10. -/
def GAME_HEIGHT : ℝ := 375

/-- server.py line 11. -/
def PLAYER_RADIUS : ℝ := 25

/-- server.py line 12. -/
def COIN_RADIUS : ℝ := 15

/-- server.py line 13. -/
def COIN_SPAWN_INTERVAL : ℝ := 5

/-- server.py line 14 (0.2 seconds). -/
def SIMULATION_LATENCY : ℝ := 1 / 5

/-- server.py line 15. -/
def PLAYER_SPEED : ℝ := 300

/-- server.py line 16. -/
def TICK_RATE : ℝ := 120

/-- server.py line 17. -/
def TICK_DELTA : ℝ := 1 / TICK_RATE

/-- server.py lines 32-40, the `Player` dataclass.  Python floats are
idealized as ℝ; the score is the ℕ it always is in the source. -/
structure Player where
  id : String
  x : ℝ
  y : ℝ
  color : ℕ × ℕ × ℕ
  score : ℕ
  input_x : ℝ
  input_y : ℝ

/-- server.py lines 51-58, the `Coin` dataclass. -/
structure Coin where
  id : String
  x : ℝ
  y : ℝ

/-- server.py lines 90-95: normalize the input vector (Python's
`** 0.5` is Real.sqrt) and scale by PLAYER_SPEED; the zero vector is
left at zero velocity by the `mag > 0` guard. -/
def velocity (ix iy : ℝ) : ℝ × ℝ :=
  let mag := Real.sqrt (ix ^ 2 + iy ^ 2)
  if mag > 0 then ((ix / mag) * PLAYER_SPEED, (iy / mag) * PLAYER_SPEED)
  else (0, 0)

/-- Python's `max(lo, min(hi, v))` (server.py lines 100-101). -/
def clamp (lo hi v : ℝ) : ℝ := max lo (min hi v)

/-- server.py lines 89-101: one movement-integration step for one player. -/
def movePlayer (p : Player) : Player :=
  let v := velocity p.input_x p.input_y
  let new_x := p.x + v.1 * TICK_DELTA
  let new_y := p.y + v.2 * TICK_DELTA
  { p with x := clamp PLAYER_RADIUS (GAME_WIDTH - PLAYER_RADIUS) new_x,
           y := clamp PLAYER_RADIUS (GAME_HEIGHT - PLAYER_RADIUS) new_y }

/-- server.py lines 106-107: the coin/player proximity test. -/
def collides (p : Player) (c : Coin) : Prop :=
  Real.sqrt ((c.x - p.x) ^ 2 + (c.y - p.y) ^ 2) < PLAYER_RADIUS + COIN_RADIUS

instance (p : Player) (c : Coin) : Decidable (collides p c) :=
  inferInstanceAs (Decidable (_ < _))

/-- server.py lines 105-110, the inner loop over `self.players.values()`
for one coin: the first player (in dict insertion order) within the
threshold gets `score += 1` and the loop breaks; the Bool records
whether the coin was claimed. -/
def awardCoin : List Player → Coin → List Player × Bool
  | [], _ => ([], false)
  | p :: ps, c =>
    if collides p c then ({ p with score := p.score + 1 } :: ps, true)
    else
      let r := awardCoin ps c
      (p :: r.1, r.2)

/-- server.py lines 103-110, the outer loop over `self.coins.items()`:
scan every coin once, accumulating `coins_to_remove` in scan order.
Scores are updated in place as the scan proceeds (positions are not). -/
def collisionScan : List Player → List Coin → List Player × List String
  | players, [] => (players, [])
  | players, c :: cs =>
    let r := awardCoin players c
    let rest := collisionScan r.1 cs
    (rest.1, if r.2 then c.id :: rest.2 else rest.2)

/-- server.py lines 112-113: delete the marked coins after the full scan. -/
def removeCoins (coins : List Coin) (ids : List String) : List Coin :=
  coins.filter (fun c => !(ids.contains c.id))

/-- The authoritative server state: the Entity Store's two dicts
(insertion-ordered, keyed by the id stored in each record), the spawn
timer, the coin-id counter and the session flag
(server.py lines 62-68). -/
structure ServerState where
  players : List Player
  coins : List Coin
  last_coin_spawn : ℝ
  coin_counter : ℕ
  game_started : Bool

/-- Python dict assignment `self.players[player_id] = player` where the
key is the player's own id: overwrite in place if present, else append. -/
def dictInsertPlayer (ps : List Player) (p : Player) : List Player :=
  if ps.any (fun q => q.id == p.id) then
    ps.map (fun q => if q.id == p.id then p else q)
  else ps ++ [p]

/-- server.py lines 72-80, `spawn_coin`: the random coordinates are
passed in as parameters.  The id `coin_<counter>` is always fresh, so
the dict assignment appends. -/
def spawn_coin (s : ServerState) (x y : ℝ) : ServerState :=
  { s with
    coins := s.coins ++ [{ id := "coin_" ++ Nat.repr s.coin_counter, x := x, y := y }],
    coin_counter := s.coin_counter + 1 }

/-- server.py lines 82-113, `update_game_state`: timed coin spawn,
movement integration for every player, collision scan, then removal of
the claimed coins.  `now` is the wall-clock reading and `sx sy` the
random spawn position. -/
def update_game_state (s : ServerState) (now sx sy : ℝ) : ServerState :=
  let s1 :=
    if now - s.last_coin_spawn > COIN_SPAWN_INTERVAL then
      { spawn_coin s sx sy with last_coin_spawn := now }
    else s
  let moved := s1.players.map movePlayer
  let scan := collisionScan moved s1.coins
  { s1 with players := scan.1, coins := removeCoins s1.coins scan.2 }

/-- Messages emitted to clients by the connection handler. -/
inductive SMsg
  | initMsg (pid : String)
  | startBroadcast
  | startTo (pid : String)
deriving DecidableEq

/-- server.py lines 170-171: the `for _ in range(5): await self.spawn_coin()`
batch; the i-th random position is `f i`. -/
def spawnBatch (s : ServerState) (f : ℕ → ℝ × ℝ) : ℕ → ServerState
  | 0 => s
  | n + 1 => spawn_coin (spawnBatch s f n) (f n).1 (f n).2

/-- server.py line 142: the id assigned to a new connection,
`player_<len(self.players)>`. -/
def newId (s : ServerState) : String := "player_" ++ Nat.repr s.players.length

/-- server.py lines 144-149: the Player record created for a new
connection (random position and color passed as parameters). -/
def newPlayer (s : ServerState) (x y : ℝ) (c1 c2 c3 : ℕ) : Player :=
  { id := newId s, x := x, y := y, color := (c1, c2, c3),
    score := 0, input_x := 0, input_y := 0 }

/-- server.py lines 141-179, the connection part of `handle_client`:
assign the id `player_<len(players)>`, create the player, insert it,
send `init`, and run the session-gating branch.  Returns the new state,
the id that was assigned, and the messages sent. -/
def connectStep (s : ServerState) (x y : ℝ) (c1 c2 c3 : ℕ) (f : ℕ → ℝ × ℝ) :
    ServerState × String × List SMsg :=
  let player_id := newId s
  let p := newPlayer s x y c1 c2 c3
  let s1 := { s with players := dictInsertPlayer s.players p }
  if s1.players.length == 2 && !s1.game_started then
    let s2 := spawnBatch { s1 with game_started := true } f 5
    (s2, player_id, [SMsg.initMsg player_id, SMsg.startBroadcast])
  else if s1.game_started then
    (s1, player_id, [SMsg.initMsg player_id, SMsg.startTo player_id])
  else
    (s1, player_id, [SMsg.initMsg player_id])

/-- server.py lines 187-196, the disconnect cleanup of `handle_client`:
remove the player record keyed by the id captured at connect time (the
`if player_id in self.players` guard makes a missing key a no-op). -/
def disconnectStep (s : ServerState) (player_id : String) : ServerState :=
  { s with players := s.players.filter (fun p => !(p.id == player_id)) }

/-- server.py lines 198-207, the delayed input application: set the
input components of the owning player; a disconnected player is a
no-op. -/
def applyInputStep (s : ServerState) (pid : String) (ix iy : ℝ) : ServerState :=
  { s with players := s.players.map (fun p =>
      if p.id == pid then { p with input_x := ix, input_y := iy } else p) }

/-- The server operations, with all randomness and clock readings as
explicit event data. -/
inductive Ev
  | connect (x y : ℝ) (c1 c2 c3 : ℕ) (f : ℕ → ℝ × ℝ)
  | disconnect (pid : String)
  | tick (now sx sy : ℝ)
  | applyInput (pid : String) (ix iy : ℝ)

/-- State transition of one server operation. -/
def stepState (s : ServerState) : Ev → ServerState
  | .connect x y c1 c2 c3 f => (connectStep s x y c1 c2 c3 f).1
  | .disconnect pid => disconnectStep s pid
  | .tick now sx sy => update_game_state s now sx sy
  | .applyInput pid ix iy => applyInputStep s pid ix iy

/-- Messages emitted by one server operation (only connects emit any of
the session messages modelled here). -/
def stepMsgs (s : ServerState) : Ev → List SMsg
  | .connect x y c1 c2 c3 f => (connectStep s x y c1 c2 c3 f).2.2
  | _ => []

/-- Whether an event is a client connect. -/
def isConnect : Ev → Bool
  | .connect _ _ _ _ _ _ => true
  | _ => false

/-- server.py lines 61-70: the freshly constructed server, with `t0` the
wall clock at startup (`self.last_coin_spawn = time.time()`). -/
def initState (t0 : ℝ) : ServerState :=
  { players := [], coins := [], last_coin_spawn := t0,
    coin_counter := 0, game_started := false }

/-- Run a trace of operations from the initial state. -/
def runTrace (t0 : ℝ) (evs : List Ev) : ServerState :=
  evs.foldl stepState (initState t0)

/-- A state is reachable if some trace of operations produces it. -/
def Reachable (s : ServerState) : Prop :=
  ∃ t0 evs, runTrace t0 evs = s

/-- Sum of all player scores. -/
def totalScore (ps : List Player) : ℕ := (ps.map Player.score).sum

/-- Index of the first player, in dict insertion-iteration order, whose
distance to the coin is below the threshold (the player the source's
inner loop awards the coin to). -/
def firstColliderIdx : List Player → Coin → Option ℕ
  | [], _ => none
  | p :: ps, c =>
    if collides p c then some 0 else (firstColliderIdx ps c).map (fun n => n + 1)

/-- Wall-clock time one iteration of `game_loop` (server.py lines
211-216) keeps the loop suspended before the next iteration begins,
under asyncio semantics: `await self.update_game_state()` never sleeps;
`await self.broadcast_state()` suspends until the `asyncio.gather` of
one `delayed_send` per connected client (server.py lines 128-139)
completes, and each `delayed_send` first does
`await asyncio.sleep(SIMULATION_LATENCY)`, so with at least one
connected client the gather completes only after SIMULATION_LATENCY
(the sends run concurrently, hence the maximum, not the sum); finally
the loop does `await asyncio.sleep(TICK_DELTA)`. -/
def gameLoopIterationTime (game_started : Bool) (numClients : ℕ) : ℝ :=
  (if game_started then (if numClients = 0 then 0 else SIMULATION_LATENCY) else 0)
    + TICK_DELTA

end Server

namespace Server

/-- A concrete player used by witnesses. -/
def pEx : Player :=
  { id := "player_0", x := 100, y := 100, color := (0, 0, 0),
    score := 0, input_x := 0, input_y := 0 }

/-- A concrete active server state used by witnesses. -/
def sEx : ServerState :=
  { players := [pEx], coins := [], last_coin_spawn := 0,
    coin_counter := 0, game_started := true }

/-- The (id, x, y) view of a player, unchanged by the collision scan. -/
def posView (p : Player) : String × ℝ × ℝ := (p.id, p.x, p.y)

/-- A concrete coin placed exactly at pEx's position, used by witnesses. -/
def cEx : Coin := { id := "coin_a", x := 100, y := 100 }

/-- Concrete connect event (client A). -/
def conEvA : Ev := Ev.connect 100 100 1 1 1 (fun _ => (50, 50))

/-- Concrete connect event (client B). -/
def conEvB : Ev := Ev.connect 200 200 5 5 5 (fun _ => (50, 50))

/-- Concrete connect event (client C). -/
def conEvC : Ev := Ev.connect 300 300 9 9 9 (fun _ => (50, 50))

/-- The session invariant of the Waiting state: before the game starts
the store is empty or holds exactly the player "player_0". -/
def preStartInv (s : ServerState) : Prop :=
  s.game_started = false →
    s.players = [] ∨ ∃ p : Player, s.players = [p] ∧ p.id = "player_0"

/-- Connect event for client B whose start transition spawns the 5
initial coins exactly at B's own position (200, 200). -/
def conEvB2 : Ev := Ev.connect 200 200 5 5 5 (fun _ => (200, 200))

/-- The first client's player record after [conEvA, conEvB2]. -/
def pAdef : Player :=
  { id := "player_0", x := 100, y := 100, color := (1, 1, 1),
    score := 0, input_x := 0, input_y := 0 }

/-- The second client's player record after [conEvA, conEvB2]. -/
def pBdef : Player :=
  { id := "player_1", x := 200, y := 200, color := (5, 5, 5),
    score := 0, input_x := 0, input_y := 0 }

/-- The n-th coin of the initial batch, spawned at (200, 200). -/
def coinAt (n : ℕ) : Coin := { id := "coin_" ++ Nat.repr n, x := 200, y := 200 }

/-- The coin store right after the start transition of [conEvA, conEvB2]. -/
def csdef : List Coin := [coinAt 0, coinAt 1, coinAt 2, coinAt 3, coinAt 4]

/-- The server state reached by [conEvA, conEvB2]. -/
def s2def : ServerState :=
  { players := [pAdef, pBdef], coins := csdef, last_coin_spawn := 0,
    coin_counter := 5, game_started := true }

/-- Player A after the tick's movement integration (stationary input). -/
def qA : Player := movePlayer pAdef

/-- Player B after the tick: stationary, and credited with all 5 coins. -/
def qB : Player := { movePlayer pBdef with score := 5 }

/-- The trace leading to the C10 counterexample state: two connects,
one tick in which B collects the 5 coins, then A disconnects. -/
def traceC10 : List Ev := [conEvA, conEvB2, Ev.tick 1 0 0, Ev.disconnect "player_0"]

end Server

end

open Client Server

theorem movePlayer_x (p : Player) :
    (movePlayer p).x =
      clamp PLAYER_RADIUS (GAME_WIDTH - PLAYER_RADIUS)
        (p.x + (velocity p.input_x p.input_y).1 * TICK_DELTA) := rfl

theorem movePlayer_y (p : Player) :
    (movePlayer p).y =
      clamp PLAYER_RADIUS (GAME_HEIGHT - PLAYER_RADIUS)
        (p.y + (velocity p.input_x p.input_y).2 * TICK_DELTA) := rfl

theorem clamp_mem (lo hi v : ℝ) (h : lo ≤ hi) :
    lo ≤ clamp lo hi v ∧ clamp lo hi v ≤ hi :=
  ⟨le_max_left _ _, max_le h (min_le_left _ _)⟩

theorem awardCoin_posView (ps : List Player) (c : Coin) :
    ((awardCoin ps c).1).map posView = ps.map posView := by
  induction ps with
  | nil => rfl
  | cons p ps ih =>
    by_cases h : collides p c
    · simp [awardCoin, h, posView]
    · simp [awardCoin, h, ih]

theorem collisionScan_posView (ps : List Player) (cs : List Coin) :
    ((collisionScan ps cs).1).map posView = ps.map posView := by
  induction cs generalizing ps with
  | nil => rfl
  | cons c cs ih =>
    simp only [collisionScan]
    rw [ih, awardCoin_posView]

/-- C1: the claim says the tick loop is never blocked by broadcast
delivery and proceeds after only the tick period.  In the source,
`game_loop` awaits `broadcast_state`, which awaits the gather of the
per-client `delayed_send` coroutines, each of which sleeps
SIMULATION_LATENCY before sending; so while the game is started and at
least one client is connected, an iteration suspends for
SIMULATION_LATENCY + TICK_DELTA, not TICK_DELTA.  (Input application,
by contrast, really is fire-and-forget via `asyncio.create_task`.) -/
theorem tick_loop_blocked_by_broadcast :
    gameLoopIterationTime true 1 = SIMULATION_LATENCY + TICK_DELTA ∧
    gameLoopIterationTime true 1 ≠ TICK_DELTA ∧
    gameLoopIterationTime true 0 = TICK_DELTA := by
  refine ⟨by norm_num [gameLoopIterationTime], ?_, by norm_num [gameLoopIterationTime]⟩
  norm_num [gameLoopIterationTime, SIMULATION_LATENCY, TICK_DELTA, TICK_RATE]

/-- C4: after every simulation step, every player's x lies in
[PLAYER_RADIUS, GAME_WIDTH − PLAYER_RADIUS] and y in
[PLAYER_RADIUS, GAME_HEIGHT − PLAYER_RADIUS], both for a single
movement integration and for every player in the state produced by a
full `update_game_state` tick, regardless of input magnitude or
direction. -/
theorem player_position_clamped (p : Player) (s : ServerState) (now sx sy : ℝ) :
    (PLAYER_RADIUS ≤ (movePlayer p).x ∧ (movePlayer p).x ≤ GAME_WIDTH - PLAYER_RADIUS ∧
     PLAYER_RADIUS ≤ (movePlayer p).y ∧ (movePlayer p).y ≤ GAME_HEIGHT - PLAYER_RADIUS) ∧
    (∀ q ∈ (update_game_state s now sx sy).players,
       PLAYER_RADIUS ≤ q.x ∧ q.x ≤ GAME_WIDTH - PLAYER_RADIUS ∧
       PLAYER_RADIUS ≤ q.y ∧ q.y ≤ GAME_HEIGHT - PLAYER_RADIUS) := by
  have hx : PLAYER_RADIUS ≤ GAME_WIDTH - PLAYER_RADIUS := by
    norm_num [PLAYER_RADIUS, GAME_WIDTH]
  have hy : PLAYER_RADIUS ≤ GAME_HEIGHT - PLAYER_RADIUS := by
    norm_num [PLAYER_RADIUS, GAME_HEIGHT]
  have hmove : ∀ r : Player,
      PLAYER_RADIUS ≤ (movePlayer r).x ∧ (movePlayer r).x ≤ GAME_WIDTH - PLAYER_RADIUS ∧
      PLAYER_RADIUS ≤ (movePlayer r).y ∧ (movePlayer r).y ≤ GAME_HEIGHT - PLAYER_RADIUS := by
    intro r
    obtain ⟨h1, h2⟩ := clamp_mem PLAYER_RADIUS (GAME_WIDTH - PLAYER_RADIUS)
      (r.x + (velocity r.input_x r.input_y).1 * TICK_DELTA) hx
    obtain ⟨h3, h4⟩ := clamp_mem PLAYER_RADIUS (GAME_HEIGHT - PLAYER_RADIUS)
      (r.y + (velocity r.input_x r.input_y).2 * TICK_DELTA) hy
    rw [movePlayer_x, movePlayer_y]
    exact ⟨h1, h2, h3, h4⟩
  refine ⟨hmove p, ?_⟩
  intro q hq
  have h1 : posView q ∈ ((update_game_state s now sx sy).players).map posView :=
    List.mem_map_of_mem _ hq
  have h2 : ((update_game_state s now sx sy).players).map posView =
      ((if now - s.last_coin_spawn > COIN_SPAWN_INTERVAL then
          { spawn_coin s sx sy with last_coin_spawn := now } else s).players.map movePlayer).map posView := by
    unfold update_game_state
    exact collisionScan_posView _ _
  rw [h2] at h1
  obtain ⟨m, hm, hpv⟩ := List.mem_map.mp h1
  obtain ⟨r, _, rfl⟩ := List.mem_map.mp hm
  have hqx : q.x = (movePlayer r).x := by
    have := congrArg (fun t => t.2.1) hpv
    simpa [posView] using this.symm
  have hqy : q.y = (movePlayer r).y := by
    have := congrArg (fun t => t.2.2) hpv
    simpa [posView] using this.symm
  rw [hqx, hqy]
  exact ⟨(hmove r).1, (hmove r).2.1, (hmove r).2.2.1, (hmove r).2.2.2⟩

/-- C5: for a nonzero input vector the applied velocity has Euclidean
magnitude exactly PLAYER_SPEED, independent of the raw input magnitude;
the zero input vector yields zero velocity (the `mag > 0` guard avoids
the division by zero). -/
theorem velocity_normalized (ix iy : ℝ) :
    (¬(ix = 0 ∧ iy = 0) →
       Real.sqrt ((velocity ix iy).1 ^ 2 + (velocity ix iy).2 ^ 2) = PLAYER_SPEED) ∧
    (ix = 0 → iy = 0 → velocity ix iy = (0, 0)) := by
  constructor
  · intro h
    have hpos : 0 < ix ^ 2 + iy ^ 2 := by
      rcases not_and_or.mp h with h1 | h1
      · have : 0 < ix ^ 2 := by positivity
        nlinarith [sq_nonneg iy]
      · have : 0 < iy ^ 2 := by positivity
        nlinarith [sq_nonneg ix]
    have hmag : 0 < Real.sqrt (ix ^ 2 + iy ^ 2) := Real.sqrt_pos.mpr hpos
    have hmag2 : (Real.sqrt (ix ^ 2 + iy ^ 2)) ^ 2 = ix ^ 2 + iy ^ 2 :=
      Real.sq_sqrt hpos.le
    have hvel : velocity ix iy =
        ((ix / Real.sqrt (ix ^ 2 + iy ^ 2)) * PLAYER_SPEED,
         (iy / Real.sqrt (ix ^ 2 + iy ^ 2)) * PLAYER_SPEED) := by
      unfold velocity
      rw [if_pos hmag]
    rw [hvel]
    have hkey : ((ix / Real.sqrt (ix ^ 2 + iy ^ 2)) * PLAYER_SPEED) ^ 2 +
        ((iy / Real.sqrt (ix ^ 2 + iy ^ 2)) * PLAYER_SPEED) ^ 2 = PLAYER_SPEED ^ 2 := by
      field_simp
      nlinarith [hmag2]
    rw [hkey]
    exact Real.sqrt_sq (by norm_num [PLAYER_SPEED])
  · intro h1 h2
    subst h1; subst h2
    unfold velocity
    rw [if_neg]
    simp [Real.sqrt_zero]

/-- C5 witness at the concrete input (1, 0). -/
theorem velocity_normalized_witness :
    ¬((1 : ℝ) = 0 ∧ (0 : ℝ) = 0) ∧
    Real.sqrt ((velocity 1 0).1 ^ 2 + (velocity 1 0).2 ^ 2) = PLAYER_SPEED :=
  ⟨by norm_num, (velocity_normalized 1 0).1 (by norm_num)⟩

theorem pushSnapshot_length_le (buf : List Client.Snapshot) (s : Client.Snapshot)
    (h : buf.length ≤ 40) : (pushSnapshot buf s).length ≤ 40 := by
  unfold pushSnapshot
  by_cases hl : (buf ++ [s]).length > 40
  · rw [if_pos hl]
    simp
    omega
  · rw [if_neg hl]
    omega

/-- C8: appending to a full 40-element buffer evicts exactly the oldest
entry (FIFO order otherwise preserved) and leaves the size at 40;
appending to a smaller buffer evicts nothing; and over any sequence of
received state_update messages the buffer never exceeds 40 entries. -/
theorem snapshot_buffer_bound (buf : List Client.Snapshot) (s : Client.Snapshot)
    (msgs : List Client.Snapshot) :
    (buf.length = 40 →
       pushSnapshot buf s = buf.tail ++ [s] ∧ (pushSnapshot buf s).length = 40) ∧
    (buf.length < 40 → pushSnapshot buf s = buf ++ [s]) ∧
    (msgs.foldl pushSnapshot []).length ≤ 40 := by
  refine ⟨?_, ?_, ?_⟩
  · intro h
    have hgt : (buf ++ [s]).length > 40 := by simp [h]
    constructor
    · unfold pushSnapshot
      rw [if_pos hgt]
      rw [List.drop_append_of_le_length (by omega), List.drop_one]
    · unfold pushSnapshot
      rw [if_pos hgt]
      simp [h]
  · intro h
    unfold pushSnapshot
    rw [if_neg (by simp; omega)]
  · have key : ∀ (l : List Client.Snapshot) (acc : List Client.Snapshot),
        acc.length ≤ 40 → (l.foldl pushSnapshot acc).length ≤ 40 := by
      intro l
      induction l with
      | nil => intro acc h; simpa using h
      | cons m ms ih =>
        intro acc h
        simpa using ih (pushSnapshot acc m) (pushSnapshot_length_le acc m h)
    exact key msgs [] (by simp)

/-- C8 witness: the 41st snapshot pushed onto a full 40-element buffer. -/
theorem snapshot_buffer_bound_witness :
    pushSnapshot buf40 snapEx = buf40.tail ++ [snapEx] ∧
    (pushSnapshot buf40 snapEx).length = 40 :=
  (snapshot_buffer_bound buf40 snapEx []).1
    (by unfold buf40; rw [List.length_map, List.length_range])

/-- C4 witness: the single player of a concrete active state after one
full tick. -/
theorem player_position_clamped_witness :
    movePlayer pEx ∈ (update_game_state sEx 1 0 0).players ∧
    (PLAYER_RADIUS ≤ (movePlayer pEx).x ∧ (movePlayer pEx).x ≤ GAME_WIDTH - PLAYER_RADIUS ∧
     PLAYER_RADIUS ≤ (movePlayer pEx).y ∧ (movePlayer pEx).y ≤ GAME_HEIGHT - PLAYER_RADIUS) := by
  have hmem : (update_game_state sEx 1 0 0).players = [movePlayer pEx] := by
    unfold update_game_state
    rw [if_neg (by norm_num [sEx, COIN_SPAWN_INTERVAL])]
    rfl
  constructor
  · rw [hmem]; exact List.mem_singleton_self _
  · exact (player_position_clamped pEx sEx 1 0 0).2 (movePlayer pEx)
      (by rw [hmem]; exact List.mem_singleton_self _)

theorem findBracket_nil (rt : ℚ) : findBracket [] rt = none := rfl

theorem findBracket_cons (s : Snapshot) (rest : List Snapshot) (rt : ℚ) :
    findBracket (s :: rest) rt =
      match findBracket rest rt with
      | some r => some r
      | none => if s.timestamp ≤ rt then some (s, rest.head?) else none := rfl

theorem findBracket_eq_none (buf : List Snapshot) (rt : ℚ)
    (h : ∀ s ∈ buf, rt < s.timestamp) : findBracket buf rt = none := by
  induction buf with
  | nil => rfl
  | cons s rest ih =>
    rw [findBracket_cons, ih (fun x hx => h x (List.mem_cons_of_mem _ hx))]
    exact if_neg (not_le.mpr (h s (List.mem_cons_self _ _)))

theorem findBracket_append_last (l : List Snapshot) (sl : Snapshot) (rt : ℚ)
    (h : sl.timestamp ≤ rt) : findBracket (l ++ [sl]) rt = some (sl, none) := by
  induction l with
  | nil =>
    rw [List.nil_append, findBracket_cons, findBracket_nil]
    exact if_pos h
  | cons a l ih =>
    rw [List.cons_append, findBracket_cons, ih]

theorem findBracket_bracketing (l1 l2 : List Snapshot) (prev nxt : Snapshot) (rt : ℚ)
    (hprev : prev.timestamp ≤ rt) (hafter : ∀ s ∈ nxt :: l2, rt < s.timestamp) :
    findBracket (l1 ++ prev :: nxt :: l2) rt = some (prev, some nxt) := by
  induction l1 with
  | nil =>
    rw [List.nil_append, findBracket_cons, findBracket_eq_none (nxt :: l2) rt hafter]
    exact if_pos hprev
  | cons a l ih =>
    rw [List.cons_append, findBracket_cons, ih]

/-- C7: the three non-interpolating fallbacks of
`get_interpolated_state`: fewer than 2 buffered snapshots yield the
latest snapshot (or the default display state when empty); a render
time older than every buffered timestamp yields the oldest snapshot;
and a newest snapshot not newer than the render time yields that newest
snapshot — never extrapolation. -/
theorem interpolation_fallback (buf : List Snapshot) (rt : ℚ) (cur : RenderState) :
    (buf = [] → get_interpolated_state buf rt cur = cur) ∧
    (∀ s0, buf = [s0] → get_interpolated_state buf rt cur = snapshotToRender s0) ∧
    (2 ≤ buf.length → (∀ s ∈ buf, rt < s.timestamp) →
       ∀ s0, buf.head? = some s0 →
         get_interpolated_state buf rt cur = snapshotToRender s0) ∧
    (∀ l sl, buf = l ++ [sl] → 2 ≤ buf.length → sl.timestamp ≤ rt →
       get_interpolated_state buf rt cur = snapshotToRender sl) := by
  refine ⟨?_, ?_, ?_, ?_⟩
  · rintro rfl; rfl
  · rintro s0 rfl; rfl
  · intro h2 hall s0 hh
    unfold get_interpolated_state
    rw [if_neg (by omega)]
    rw [findBracket_eq_none buf rt hall, hh]
  · rintro l sl rfl h2 hts
    unfold get_interpolated_state
    rw [if_neg (by omega)]
    rw [findBracket_append_last l sl rt hts]

/-- C7 witness: the empty-buffer fallback. -/
theorem interpolation_fallback_witness :
    get_interpolated_state [] 0 emptyRender = emptyRender :=
  (interpolation_fallback [] 0 emptyRender).1 rfl

theorem lookupDict_cons (kv : String × PView) (m : List (String × PView)) (k : String) :
    lookupDict (kv :: m) k = if kv.1 == k then some kv.2 else lookupDict m k := by
  by_cases h : (kv.1 == k) = true
  · rw [if_pos h]
    unfold lookupDict
    rw [@List.find?_cons_of_pos _ (fun x => x.1 == k) kv m h]
    rfl
  · rw [if_neg h]
    unfold lookupDict
    rw [@List.find?_cons_of_neg _ (fun x => x.1 == k) kv m h]

theorem lookupDict_keyed_map (m : List (String × PView)) (g : String → PView → PView)
    (k : String) :
    lookupDict (m.map (fun kv => (kv.1, g kv.1 kv.2))) k = (lookupDict m k).map (g k) := by
  induction m with
  | nil => rfl
  | cons kv m ih =>
    rw [List.map_cons, lookupDict_cons, lookupDict_cons]
    by_cases h : (kv.1 == k) = true
    · rw [if_pos h, if_pos h]
      have hk : kv.1 = k := by simpa using h
      subst hk
      rfl
    · rw [if_neg h, if_neg h, ih]

/-- C6: with at least two buffered snapshots and a bracketing pair
(prev the newest snapshot with timestamp ≤ renderTime, nxt its
successor in the buffer), the render state interpolates every player id
of nxt that is also in prev by
prev.position + (next.position − prev.position) × alpha with
alpha = (renderTime − prev.timestamp)/(next.timestamp − prev.timestamp)
(0 when the two timestamps coincide), carries score and color from nxt,
passes an id only in nxt through unmodified, and uses nxt's coin list
as-is. -/
theorem interpolation_lerp (l1 l2 : List Snapshot) (prev nxt : Snapshot)
    (rt : ℚ) (cur : RenderState)
    (hprev : prev.timestamp ≤ rt)
    (hafter : ∀ s ∈ nxt :: l2, rt < s.timestamp) :
    (get_interpolated_state (l1 ++ prev :: nxt :: l2) rt cur).coins = nxt.coins ∧
    ∀ pid,
      lookupDict (get_interpolated_state (l1 ++ prev :: nxt :: l2) rt cur).players pid =
        (lookupDict (dictOfPlayers nxt.players) pid).map (fun np =>
          match lookupDict (dictOfPlayers prev.players) pid with
          | some pp =>
            { id := pid,
              x := pp.x + (np.x - pp.x) *
                (if nxt.timestamp - prev.timestamp = 0 then 0
                 else (rt - prev.timestamp) / (nxt.timestamp - prev.timestamp)),
              y := pp.y + (np.y - pp.y) *
                (if nxt.timestamp - prev.timestamp = 0 then 0
                 else (rt - prev.timestamp) / (nxt.timestamp - prev.timestamp)),
              score := np.score,
              color := np.color }
          | none => np) := by
  have hred : get_interpolated_state (l1 ++ prev :: nxt :: l2) rt cur =
      { players := interpPlayers prev.players nxt.players
          (if nxt.timestamp - prev.timestamp = 0 then 0
           else (rt - prev.timestamp) / (nxt.timestamp - prev.timestamp)),
        coins := nxt.coins } := by
    unfold get_interpolated_state
    rw [if_neg (by simp only [List.length_append, List.length_cons]; omega)]
    rw [findBracket_bracketing l1 l2 prev nxt rt hprev hafter]
  constructor
  · rw [hred]
  · intro pid
    rw [hred]
    show lookupDict (interpPlayers prev.players nxt.players _) pid = _
    unfold interpPlayers
    rw [lookupDict_keyed_map]
    cases h : lookupDict (dictOfPlayers nxt.players) pid with
    | none => rfl
    | some np =>
      simp only [Option.map_some']
      unfold interpOne
      cases lookupDict (dictOfPlayers prev.players) pid <;> rfl

/-- C6 witness: a concrete bracketing pair at renderTime 1/2. -/
theorem interpolation_lerp_witness :
    (get_interpolated_state ([] ++ prevEx :: nxtEx :: []) (1 / 2) emptyRender).coins =
      nxtEx.coins :=
  (interpolation_lerp [] [] prevEx nxtEx (1 / 2) emptyRender (by norm_num [prevEx])
    (by intro s hs; rw [List.mem_singleton] at hs; subst hs; norm_num [nxtEx])).1

/-- Sanity check matching the spec's interpolation-linearity example:
prev at (0,0) with timestamp 0, next at (10,0) with timestamp 1 and
renderTime 1/2 put player A at (5,0) with score and color from next,
pass player B through, and use next's coins. -/
example :
    get_interpolated_state [prevEx, nxtEx] (1 / 2) emptyRender =
      { players := [("A", { id := "A", x := 5, y := 0, score := 1, color := (1, 2, 3) }),
                    ("B", pB)],
        coins := nxtEx.coins } := by
  simp [get_interpolated_state, findBracket, prevEx, nxtEx, pA0, pA1, pB,
    interpPlayers, interpOne, dictOfPlayers, dictInsertP, lookupDict,
    snapshotToRender, List.find?, emptyRender]
  norm_num [dictInsertP, List.find?, beq_iff_eq,
    (show ("A" : String) ≠ "B" by decide), (show ("B" : String) ≠ "A" by decide),
    (show (("A" : String) == "B") = false by decide),
    (show (("B" : String) == "A") = false by decide)]

theorem awardCoin_nil (c : Coin) : awardCoin [] c = ([], false) := rfl

theorem awardCoin_cons (p : Player) (ps : List Player) (c : Coin) :
    awardCoin (p :: ps) c =
      if collides p c then ({ p with score := p.score + 1 } :: ps, true)
      else (p :: (awardCoin ps c).1, (awardCoin ps c).2) := by
  by_cases h : collides p c
  · rw [if_pos h]; simp [awardCoin, h]
  · rw [if_neg h]; simp [awardCoin, h]

theorem collisionScan_nil (ps : List Player) : collisionScan ps [] = (ps, []) := rfl

theorem collisionScan_cons (ps : List Player) (c : Coin) (cs : List Coin) :
    collisionScan ps (c :: cs) =
      ((collisionScan (awardCoin ps c).1 cs).1,
       if (awardCoin ps c).2 then c.id :: (collisionScan (awardCoin ps c).1 cs).2
       else (collisionScan (awardCoin ps c).1 cs).2) := rfl

theorem firstColliderIdx_congr (ps qs : List Player) (c : Coin)
    (h : ps.map posView = qs.map posView) :
    firstColliderIdx ps c = firstColliderIdx qs c := by
  induction ps generalizing qs with
  | nil =>
    cases qs with
    | nil => rfl
    | cons q qs => simp at h
  | cons p ps ih =>
    cases qs with
    | nil => simp at h
    | cons q qs =>
      simp only [List.map_cons, List.cons.injEq] at h
      obtain ⟨h1, h2⟩ := h
      have hx : p.x = q.x := congrArg (fun t => t.2.1) h1
      have hy : p.y = q.y := congrArg (fun t => t.2.2) h1
      have hiff : collides p c ↔ collides q c := by unfold collides; rw [hx, hy]
      simp only [firstColliderIdx]
      by_cases hcol : collides p c
      · rw [if_pos hcol, if_pos (hiff.mp hcol)]
      · rw [if_neg hcol, if_neg (fun hq => hcol (hiff.mpr hq)), ih qs h2]

theorem awardCoin_hit (ps : List Player) (c : Coin) :
    (awardCoin ps c).2 = (firstColliderIdx ps c).isSome := by
  induction ps with
  | nil => rfl
  | cons p ps ih =>
    by_cases h : collides p c
    · rw [awardCoin_cons, if_pos h]
      simp [firstColliderIdx, h]
    · rw [awardCoin_cons, if_neg h]
      simp [firstColliderIdx, h, ih]

theorem awardCoin_get (ps : List Player) (c : Coin) (i : ℕ) :
    (awardCoin ps c).1[i]? = (ps[i]?).map (fun p =>
      if firstColliderIdx ps c = some i then { p with score := p.score + 1 } else p) := by
  induction ps generalizing i with
  | nil => simp [awardCoin_nil]
  | cons p ps ih =>
    by_cases h : collides p c
    · rw [awardCoin_cons, if_pos h]
      have hidx : firstColliderIdx (p :: ps) c = some 0 := by
        simp [firstColliderIdx, h]
      cases i with
      | zero => simp [hidx]
      | succ j => simp [hidx]
    · rw [awardCoin_cons, if_neg h]
      have hidx : firstColliderIdx (p :: ps) c =
          (firstColliderIdx ps c).map (fun n => n + 1) := by
        simp [firstColliderIdx, h]
      cases i with
      | zero =>
        rcases hk : firstColliderIdx ps c with _ | k <;> simp [hidx, hk]
      | succ j =>
        have hcond : (firstColliderIdx (p :: ps) c = some (j + 1)) ↔
            (firstColliderIdx ps c = some j) := by
          rw [hidx]
          cases hE : firstColliderIdx ps c <;> simp [hE]
        rw [List.getElem?_cons_succ, List.getElem?_cons_succ, ih j]
        cases hp : ps[j]? with
        | none => rfl
        | some q =>
          simp only [Option.map_some']
          by_cases hA : firstColliderIdx ps c = some j
          · rw [if_pos hA, if_pos (hcond.mpr hA)]
          · rw [if_neg hA, if_neg (fun hB => hA (hcond.mp hB))]

theorem collisionScan_removed (cs : List Coin) (ps : List Player) :
    (collisionScan ps cs).2 =
      (cs.filter (fun c => (firstColliderIdx ps c).isSome)).map Coin.id := by
  induction cs generalizing ps with
  | nil => rfl
  | cons c cs ih =>
    rw [collisionScan_cons, ih (awardCoin ps c).1]
    have hpres : ∀ c' : Coin,
        firstColliderIdx (awardCoin ps c).1 c' = firstColliderIdx ps c' :=
      fun c' => firstColliderIdx_congr _ _ c' (awardCoin_posView ps c)
    simp only [hpres]
    rw [awardCoin_hit]
    by_cases hc : (firstColliderIdx ps c).isSome
    · simp [List.filter_cons, hc]
    · simp [List.filter_cons, hc]

theorem collisionScan_get (cs : List Coin) (ps : List Player) (i : ℕ) :
    (collisionScan ps cs).1[i]? = (ps[i]?).map (fun p =>
      { p with score := p.score +
          (cs.filter (fun c => decide (firstColliderIdx ps c = some i))).length }) := by
  induction cs generalizing ps with
  | nil =>
    cases hp : ps[i]? with
    | none => simp [collisionScan_nil, hp]
    | some p =>
      simp [collisionScan_nil, hp]
  | cons c cs ih =>
    rw [collisionScan_cons]
    show (collisionScan (awardCoin ps c).1 cs).1[i]? = _
    rw [ih (awardCoin ps c).1]
    rw [awardCoin_get]
    rw [Option.map_map]
    have hpres : ∀ c' : Coin,
        firstColliderIdx (awardCoin ps c).1 c' = firstColliderIdx ps c' :=
      fun c' => firstColliderIdx_congr _ _ c' (awardCoin_posView ps c)
    simp only [hpres]
    cases hp : ps[i]? with
    | none => rfl
    | some p =>
      simp only [Option.map_some', Function.comp]
      by_cases hc : firstColliderIdx ps c = some i
      · rw [if_pos hc]
        rw [List.filter_cons_of_pos (by simpa using hc)]
        cases p
        simp [Player.mk.injEq]
        omega
      · rw [if_neg hc]
        rw [List.filter_cons_of_neg (by simpa using hc)]

theorem totalScore_award (ps : List Player) (c : Coin) :
    totalScore (awardCoin ps c).1 =
      totalScore ps + (if (awardCoin ps c).2 then 1 else 0) := by
  induction ps with
  | nil => simp [awardCoin_nil, totalScore]
  | cons p ps ih =>
    by_cases h : collides p c
    · rw [awardCoin_cons, if_pos h]
      simp [totalScore]
      omega
    · rw [awardCoin_cons, if_neg h]
      simp only [totalScore, List.map_cons, List.sum_cons] at ih ⊢
      omega

theorem totalScore_scan (cs : List Coin) (ps : List Player) :
    totalScore (collisionScan ps cs).1 =
      totalScore ps + ((collisionScan ps cs).2).length := by
  induction cs generalizing ps with
  | nil => simp [collisionScan_nil]
  | cons c cs ih =>
    rw [collisionScan_cons]
    show totalScore (collisionScan (awardCoin ps c).1 cs).1 = _
    rw [ih (awardCoin ps c).1, totalScore_award]
    cases hb : (awardCoin ps c).2
    · simp [hb]
    · simp [hb]
      omega

theorem removeCoins_scan (players : List Player) (coins : List Coin)
    (hids : (coins.map Coin.id).Nodup) :
    removeCoins coins (collisionScan players coins).2 =
      coins.filter (fun c => !((firstColliderIdx players c).isSome)) := by
  unfold removeCoins
  rw [collisionScan_removed]
  apply List.filter_congr
  intro c hc
  congr 1
  by_cases hP : (firstColliderIdx players c).isSome = true
  · rw [hP]
    exact List.elem_iff.mpr
      (List.mem_map.mpr ⟨c, List.mem_filter.mpr ⟨hc, hP⟩, rfl⟩)
  · rw [Bool.not_eq_true] at hP
    rw [hP]
    refine Bool.eq_false_iff.mpr ?_
    intro htrue
    obtain ⟨c', hc', hid⟩ := List.mem_map.mp (List.elem_iff.mp htrue)
    obtain ⟨hmem, hPc'⟩ := List.mem_filter.mp hc'
    have hcc : c' = c := List.inj_on_of_nodup_map hids hmem hc hid
    rw [hcc] at hPc'
    rw [hP] at hPc'
    exact Bool.false_ne_true hPc'

/-- C3: in one tick's collision scan over the current coins, each coin
is claimed by at most one player — the first player in dict
insertion-iteration order within the combined-radius threshold — the
players' ids and positions are untouched and each player's score grows
by exactly the number of coins whose first collider it is, the removed
ids are exactly the claimed coins in scan order with no coin evaluated
twice, removal (after the full scan) deletes exactly the claimed coins,
and the total score increment equals the number of coins removed. -/
theorem coin_collection_exclusive (players : List Player) (coins : List Coin)
    (hids : (coins.map Coin.id).Nodup) :
    (collisionScan players coins).2 =
      (coins.filter (fun c => (firstColliderIdx players c).isSome)).map Coin.id ∧
    ((collisionScan players coins).2).Nodup ∧
    (∀ i p p', players[i]? = some p →
       ((collisionScan players coins).1)[i]? = some p' →
       p'.id = p.id ∧ p'.x = p.x ∧ p'.y = p.y ∧
       p'.score = p.score +
         (coins.filter (fun c => decide (firstColliderIdx players c = some i))).length) ∧
    removeCoins coins (collisionScan players coins).2 =
      coins.filter (fun c => !((firstColliderIdx players c).isSome)) ∧
    totalScore (collisionScan players coins).1 =
      totalScore players + ((collisionScan players coins).2).length := by
  refine ⟨collisionScan_removed coins players, ?_, ?_,
    removeCoins_scan players coins hids, totalScore_scan coins players⟩
  · rw [collisionScan_removed]
    exact List.Nodup.sublist (List.Sublist.map Coin.id (List.filter_sublist _)) hids
  · intro i p p' hp hp'
    have h2 := collisionScan_get coins players i
    rw [hp, Option.map_some'] at h2
    rw [h2] at hp'
    have hpp : p' = { p with score := p.score +
        (coins.filter (fun c => decide (firstColliderIdx players c = some i))).length } :=
      (Option.some.inj hp').symm
    rw [hpp]
    exact ⟨rfl, rfl, rfl, rfl⟩

/-- C3 witness: one player and one coin at the same position. -/
theorem coin_collection_exclusive_witness :
    ([cEx].map Coin.id).Nodup ∧
    totalScore (collisionScan [pEx] [cEx]).1 =
      totalScore [pEx] + ((collisionScan [pEx] [cEx]).2).length :=
  ⟨by decide, (coin_collection_exclusive [pEx] [cEx] (by decide)).2.2.2.2⟩

theorem movePlayer_id (p : Player) : (movePlayer p).id = p.id := rfl

theorem newPlayer_id (s : ServerState) (x y : ℝ) (c1 c2 c3 : ℕ) :
    (newPlayer s x y c1 c2 c3).id = newId s := rfl

theorem spawnGate_players (s : ServerState) (now sx sy : ℝ) :
    (if now - s.last_coin_spawn > COIN_SPAWN_INTERVAL then
       { spawn_coin s sx sy with last_coin_spawn := now } else s).players = s.players := by
  by_cases hc : now - s.last_coin_spawn > COIN_SPAWN_INTERVAL
  · rw [if_pos hc]
    rfl
  · rw [if_neg hc]

theorem update_game_state_started (s : ServerState) (now sx sy : ℝ) :
    (update_game_state s now sx sy).game_started = s.game_started := by
  unfold update_game_state
  by_cases hc : now - s.last_coin_spawn > COIN_SPAWN_INTERVAL
  · rw [if_pos hc]
    rfl
  · rw [if_neg hc]

theorem map_id_of_map_posView (ps qs : List Player)
    (h : ps.map posView = qs.map posView) :
    ps.map Player.id = qs.map Player.id := by
  have h2 := congrArg (List.map Prod.fst) h
  simpa [List.map_map, Function.comp, posView] using h2

theorem update_game_state_ids (s : ServerState) (now sx sy : ℝ) :
    (update_game_state s now sx sy).players.map Player.id =
      s.players.map Player.id := by
  unfold update_game_state
  rw [map_id_of_map_posView _ _ (collisionScan_posView _ _)]
  rw [List.map_map]
  rw [show Player.id ∘ movePlayer = Player.id from rfl]
  rw [spawnGate_players]

theorem map_id_singleton (ps : List Player) (a : String)
    (h : ps.map Player.id = [a]) : ∃ p, ps = [p] ∧ p.id = a := by
  cases ps with
  | nil => simp at h
  | cons p tail =>
    cases tail with
    | nil =>
      simp at h
      exact ⟨p, rfl, h⟩
    | cons q t => simp at h

theorem spawnBatch_players (s : ServerState) (f : ℕ → ℝ × ℝ) (n : ℕ) :
    (spawnBatch s f n).players = s.players := by
  induction n with
  | zero => rfl
  | succ k ih => simp [spawnBatch, spawn_coin, ih]

theorem spawnBatch_started (s : ServerState) (f : ℕ → ℝ × ℝ) (n : ℕ) :
    (spawnBatch s f n).game_started = s.game_started := by
  induction n with
  | zero => rfl
  | succ k ih => simp [spawnBatch, spawn_coin, ih]

theorem spawnBatch_coins_length (s : ServerState) (f : ℕ → ℝ × ℝ) (n : ℕ) :
    (spawnBatch s f n).coins.length = s.coins.length + n := by
  induction n with
  | zero => rfl
  | succ k ih =>
    simp [spawnBatch, spawn_coin, ih]
    omega

theorem connectStep_when_started (s : ServerState) (x y : ℝ) (c1 c2 c3 : ℕ)
    (f : ℕ → ℝ × ℝ) (h : s.game_started = true) :
    connectStep s x y c1 c2 c3 f =
      ({ s with players := dictInsertPlayer s.players (newPlayer s x y c1 c2 c3) },
       newId s,
       [SMsg.initMsg (newId s), SMsg.startTo (newId s)]) := by
  unfold connectStep
  simp [h]

theorem connectStep_waiting_nil (s : ServerState) (x y : ℝ) (c1 c2 c3 : ℕ)
    (f : ℕ → ℝ × ℝ) (h0 : s.players = []) (hgs : s.game_started = false) :
    connectStep s x y c1 c2 c3 f =
      ({ s with players := [newPlayer s x y c1 c2 c3] }, newId s,
       [SMsg.initMsg (newId s)]) := by
  unfold connectStep
  simp [h0, hgs, dictInsertPlayer]

theorem connectStep_waiting_one (s : ServerState) (x y : ℝ) (c1 c2 c3 : ℕ)
    (f : ℕ → ℝ × ℝ) (p0 : Player) (h0 : s.players = [p0]) (hid : p0.id = "player_0")
    (hgs : s.game_started = false) :
    connectStep s x y c1 c2 c3 f =
      (spawnBatch
         { s with players := [p0, newPlayer s x y c1 c2 c3], game_started := true } f 5,
       newId s,
       [SMsg.initMsg (newId s), SMsg.startBroadcast]) := by
  have hlen : newId s = "player_1" := by
    unfold newId
    rw [h0, List.length_singleton]
    rfl
  have hne : (p0.id == (newPlayer s x y c1 c2 c3).id) = false := by
    rw [newPlayer_id, hid, hlen]
    decide
  unfold connectStep
  simp [h0, dictInsertPlayer, hne, hgs]

theorem stepState_started_of_not_connect (s : ServerState) (e : Ev)
    (h : isConnect e = false) :
    (stepState s e).game_started = s.game_started := by
  cases e with
  | connect x y c1 c2 c3 f => simp [isConnect] at h
  | disconnect pid => rfl
  | tick now sx sy => exact update_game_state_started s now sx sy
  | applyInput pid ix iy => rfl

theorem stepState_started_mono (s : ServerState) (e : Ev)
    (h : s.game_started = true) : (stepState s e).game_started = true := by
  cases e with
  | connect x y c1 c2 c3 f =>
    show (connectStep s x y c1 c2 c3 f).1.game_started = true
    rw [connectStep_when_started s x y c1 c2 c3 f h]
    exact h
  | disconnect pid => exact h
  | tick now sx sy =>
    show (update_game_state s now sx sy).game_started = true
    rw [update_game_state_started]
    exact h
  | applyInput pid ix iy => exact h

theorem stepMsgs_of_not_connect (s : ServerState) (e : Ev)
    (h : isConnect e = false) : stepMsgs s e = [] := by
  cases e with
  | connect x y c1 c2 c3 f => simp [isConnect] at h
  | disconnect pid => rfl
  | tick now sx sy => rfl
  | applyInput pid ix iy => rfl

theorem applyInputStep_ids (s : ServerState) (pid : String) (ix iy : ℝ) :
    (applyInputStep s pid ix iy).players.map Player.id = s.players.map Player.id := by
  show (s.players.map _).map Player.id = _
  rw [List.map_map]
  apply List.map_congr_left
  intro p _
  by_cases hc : (p.id == pid) = true
  · simp [Function.comp, hc]
  · simp [Function.comp, hc]

theorem preStartInv_step (s : ServerState) (e : Ev) (hs : preStartInv s) :
    preStartInv (stepState s e) := by
  cases e with
  | connect x y c1 c2 c3 f =>
    intro hns
    cases hgs : s.game_started with
    | true =>
      exfalso
      have h2 := stepState_started_mono s (Ev.connect x y c1 c2 c3 f) hgs
      rw [hns] at h2
      exact Bool.false_ne_true h2
    | false =>
      rcases hs hgs with h0 | ⟨p0, h0, hid⟩
      · right
        refine ⟨newPlayer s x y c1 c2 c3, ?_, ?_⟩
        · show (connectStep s x y c1 c2 c3 f).1.players = _
          rw [connectStep_waiting_nil s x y c1 c2 c3 f h0 hgs]
        · rw [newPlayer_id]
          unfold newId
          rw [h0]
          rfl
      · exfalso
        have h2 : (stepState s (Ev.connect x y c1 c2 c3 f)).game_started = true := by
          show (connectStep s x y c1 c2 c3 f).1.game_started = true
          rw [connectStep_waiting_one s x y c1 c2 c3 f p0 h0 hid hgs]
          rw [spawnBatch_started]
        rw [hns] at h2
        exact Bool.false_ne_true h2
  | disconnect pid =>
    intro hns
    have hgs : s.game_started = false := hns
    rcases hs hgs with h0 | ⟨p0, h0, hid⟩
    · left
      show s.players.filter (fun p => !(p.id == pid)) = []
      rw [h0]
      rfl
    · by_cases hmatch : (p0.id == pid) = true
      · left
        show s.players.filter (fun p => !(p.id == pid)) = []
        rw [h0]
        simp [List.filter_cons, hmatch]
      · right
        refine ⟨p0, ?_, hid⟩
        show s.players.filter (fun p => !(p.id == pid)) = [p0]
        rw [h0]
        simp [List.filter_cons, hmatch]
  | tick now sx sy =>
    intro hns
    have hgs : s.game_started = false := by
      have h2 := update_game_state_started s now sx sy
      have hns' : (update_game_state s now sx sy).game_started = false := hns
      rw [hns'] at h2
      exact h2.symm
    have hids := update_game_state_ids s now sx sy
    rcases hs hgs with h0 | ⟨p0, h0, hid⟩
    · left
      have h3 : (update_game_state s now sx sy).players.map Player.id = [] := by
        rw [hids, h0]
        rfl
      exact List.map_eq_nil_iff.mp h3
    · right
      have h3 : (update_game_state s now sx sy).players.map Player.id = ["player_0"] := by
        rw [hids, h0, List.map_singleton, hid]
      exact map_id_singleton _ _ h3
  | applyInput pid ix iy =>
    intro hns
    have hgs : s.game_started = false := hns
    rcases hs hgs with h0 | ⟨p0, h0, hid⟩
    · left
      show s.players.map _ = []
      rw [h0]
      rfl
    · right
      have h3 : (applyInputStep s pid ix iy).players.map Player.id = ["player_0"] := by
        rw [applyInputStep_ids, h0, List.map_singleton, hid]
      exact map_id_singleton _ _ h3

theorem reachable_preStartInv (s : ServerState) (hs : Reachable s) : preStartInv s := by
  obtain ⟨t0, evs, rfl⟩ := hs
  have key : ∀ (l : List Ev) (acc : ServerState), preStartInv acc →
      preStartInv (l.foldl stepState acc) := by
    intro l
    induction l with
    | nil => intro acc h; exact h
    | cons e es ih => intro acc h; exact ih _ (preStartInv_step acc e h)
  exact key evs (initState t0) (fun _ => Or.inl rfl)





/-- C9: starting from any reachable server state, the Waiting→Active
transition happens exactly on a connect made while Waiting with one
Player already present (the connect that brings the count to 2) — never
earlier, never on a later connect; exactly that transition spawns the
initial batch of 5 coins and broadcasts game_start; a client connecting
while Active is sent game_start immediately; and Active is never left
(so the transition is never re-triggered, also not by a client that
restores the count to 2 after a disconnect). -/
theorem session_gating (s : ServerState) (hs : Reachable s) (e : Ev) :
    ((s.game_started = false ∧ (stepState s e).game_started = true) ↔
       (isConnect e = true ∧ s.game_started = false ∧ s.players.length = 1)) ∧
    ((s.game_started = false ∧ (stepState s e).game_started = true) →
       (stepState s e).players.length = 2 ∧
       SMsg.startBroadcast ∈ stepMsgs s e ∧
       (stepState s e).coins.length = s.coins.length + 5) ∧
    (¬(s.game_started = false ∧ (stepState s e).game_started = true) →
       SMsg.startBroadcast ∉ stepMsgs s e ∧
       (isConnect e = true → (stepState s e).coins.length = s.coins.length)) ∧
    (s.game_started = true → isConnect e = true →
       SMsg.startTo (newId s) ∈ stepMsgs s e) ∧
    (s.game_started = true → (stepState s e).game_started = true) := by
  have hinv := reachable_preStartInv s hs
  cases e with
  | connect x y c1 c2 c3 f =>
    cases hgs : s.game_started with
    | true =>
      have hcs := connectStep_when_started s x y c1 c2 c3 f hgs
      have hstep : stepState s (Ev.connect x y c1 c2 c3 f) =
          { s with players := dictInsertPlayer s.players (newPlayer s x y c1 c2 c3) } := by
        show (connectStep s x y c1 c2 c3 f).1 = _
        rw [hcs]
      have hmsgs : stepMsgs s (Ev.connect x y c1 c2 c3 f) =
          [SMsg.initMsg (newId s), SMsg.startTo (newId s)] := by
        show (connectStep s x y c1 c2 c3 f).2.2 = _
        rw [hcs]
      refine ⟨⟨?_, ?_⟩, ?_, ?_, ?_, ?_⟩
      · rintro ⟨hf, -⟩
        exact Bool.noConfusion hf
      · rintro ⟨-, hf, -⟩
        exact Bool.noConfusion hf
      · rintro ⟨hf, -⟩
        exact Bool.noConfusion hf
      · intro _
        refine ⟨?_, ?_⟩
        · rw [hmsgs]
          simp
        · intro _
          rw [hstep]
      · intro _ _
        rw [hmsgs]
        simp
      · intro _
        rw [hstep]
        exact hgs
    | false =>
      rcases hinv hgs with h0 | ⟨p0, h0, hid⟩
      · have hcs := connectStep_waiting_nil s x y c1 c2 c3 f h0 hgs
        have hstep : stepState s (Ev.connect x y c1 c2 c3 f) =
            { s with players := [newPlayer s x y c1 c2 c3] } := by
          show (connectStep s x y c1 c2 c3 f).1 = _
          rw [hcs]
        have hmsgs : stepMsgs s (Ev.connect x y c1 c2 c3 f) =
            [SMsg.initMsg (newId s)] := by
          show (connectStep s x y c1 c2 c3 f).2.2 = _
          rw [hcs]
        have hstarted : (stepState s (Ev.connect x y c1 c2 c3 f)).game_started = false := by
          rw [hstep]
          exact hgs
        refine ⟨⟨?_, ?_⟩, ?_, ?_, ?_, ?_⟩
        · rintro ⟨-, hf⟩
          rw [hstarted] at hf
          exact absurd hf Bool.false_ne_true
        · rintro ⟨-, -, hlen⟩
          rw [h0] at hlen
          exact absurd hlen (by decide)
        · rintro ⟨-, hf⟩
          rw [hstarted] at hf
          exact absurd hf Bool.false_ne_true
        · intro _
          refine ⟨?_, ?_⟩
          · rw [hmsgs]
            simp
          · intro _
            rw [hstep]
        · intro hf _
          exact absurd hf Bool.false_ne_true
        · intro hf
          exact absurd hf Bool.false_ne_true
      · have hcs := connectStep_waiting_one s x y c1 c2 c3 f p0 h0 hid hgs
        have hstep : stepState s (Ev.connect x y c1 c2 c3 f) =
            spawnBatch
              { s with players := [p0, newPlayer s x y c1 c2 c3],
                       game_started := true } f 5 := by
          show (connectStep s x y c1 c2 c3 f).1 = _
          rw [hcs]
        have hmsgs : stepMsgs s (Ev.connect x y c1 c2 c3 f) =
            [SMsg.initMsg (newId s), SMsg.startBroadcast] := by
          show (connectStep s x y c1 c2 c3 f).2.2 = _
          rw [hcs]
        have hstarted : (stepState s (Ev.connect x y c1 c2 c3 f)).game_started = true := by
          rw [hstep, spawnBatch_started]
        have hplayers : (stepState s (Ev.connect x y c1 c2 c3 f)).players =
            [p0, newPlayer s x y c1 c2 c3] := by
          rw [hstep, spawnBatch_players]
        have hcoins : (stepState s (Ev.connect x y c1 c2 c3 f)).coins.length =
            s.coins.length + 5 := by
          rw [hstep, spawnBatch_coins_length]
        refine ⟨⟨?_, ?_⟩, ?_, ?_, ?_, ?_⟩
        · intro _
          refine ⟨rfl, rfl, ?_⟩
          rw [h0]
          rfl
        · intro _
          exact ⟨rfl, hstarted⟩
        · intro _
          refine ⟨?_, ?_, hcoins⟩
          · rw [hplayers]
            rfl
          · rw [hmsgs]
            simp
        · intro hn
          exact absurd ⟨rfl, hstarted⟩ hn
        · intro hf _
          exact absurd hf Bool.false_ne_true
        · intro hf
          exact absurd hf Bool.false_ne_true
  | disconnect pid =>
    have hse : (stepState s (Ev.disconnect pid)).game_started = s.game_started :=
      stepState_started_of_not_connect s _ rfl
    have hme : stepMsgs s (Ev.disconnect pid) = [] := rfl
    refine ⟨⟨?_, ?_⟩, ?_, ?_, ?_, ?_⟩
    · rintro ⟨hf, ht⟩
      rw [hse, hf] at ht
      exact absurd ht Bool.false_ne_true
    · rintro ⟨hf, -⟩
      exact Bool.noConfusion hf
    · rintro ⟨hf, ht⟩
      rw [hse, hf] at ht
      exact absurd ht Bool.false_ne_true
    · intro _
      refine ⟨?_, ?_⟩
      · rw [hme]
        simp
      · intro hf
        exact Bool.noConfusion hf
    · intro _ hf
      exact Bool.noConfusion hf
    · intro hf
      rw [hse]
      exact hf
  | tick now sx sy =>
    have hse : (stepState s (Ev.tick now sx sy)).game_started = s.game_started :=
      stepState_started_of_not_connect s _ rfl
    have hme : stepMsgs s (Ev.tick now sx sy) = [] := rfl
    refine ⟨⟨?_, ?_⟩, ?_, ?_, ?_, ?_⟩
    · rintro ⟨hf, ht⟩
      rw [hse, hf] at ht
      exact absurd ht Bool.false_ne_true
    · rintro ⟨hf, -⟩
      exact Bool.noConfusion hf
    · rintro ⟨hf, ht⟩
      rw [hse, hf] at ht
      exact absurd ht Bool.false_ne_true
    · intro _
      refine ⟨?_, ?_⟩
      · rw [hme]
        simp
      · intro hf
        exact Bool.noConfusion hf
    · intro _ hf
      exact Bool.noConfusion hf
    · intro hf
      rw [hse]
      exact hf
  | applyInput pid ix iy =>
    have hse : (stepState s (Ev.applyInput pid ix iy)).game_started = s.game_started :=
      stepState_started_of_not_connect s _ rfl
    have hme : stepMsgs s (Ev.applyInput pid ix iy) = [] := rfl
    refine ⟨⟨?_, ?_⟩, ?_, ?_, ?_, ?_⟩
    · rintro ⟨hf, ht⟩
      rw [hse, hf] at ht
      exact absurd ht Bool.false_ne_true
    · rintro ⟨hf, -⟩
      exact Bool.noConfusion hf
    · rintro ⟨hf, ht⟩
      rw [hse, hf] at ht
      exact absurd ht Bool.false_ne_true
    · intro _
      refine ⟨?_, ?_⟩
      · rw [hme]
        simp
      · intro hf
        exact Bool.noConfusion hf
    · intro _ hf
      exact Bool.noConfusion hf
    · intro hf
      rw [hse]
      exact hf

/-- C9 witness: a second client connecting to the reachable one-player
state fires the transition, spawns 5 coins and broadcasts game_start. -/
theorem session_gating_witness :
    (stepState (runTrace 0 [conEvA]) conEvB).players.length = 2 ∧
    SMsg.startBroadcast ∈ stepMsgs (runTrace 0 [conEvA]) conEvB ∧
    (stepState (runTrace 0 [conEvA]) conEvB).coins.length =
      (runTrace 0 [conEvA]).coins.length + 5 :=
  (session_gating (runTrace 0 [conEvA]) ⟨0, [conEvA], rfl⟩ conEvB).2.1 ⟨rfl, rfl⟩

/-- C2: the claim says a new connection always creates a Player with a
fresh id and never replaces an existing client's record.  In the
source the id is `player_<len(self.players)>`, so after
[connect, connect, disconnect "player_0"] the store holds exactly the
player "player_1" (of the second client, color (5,5,5)) and the store
size is 1, so the next connect computes the id "player_1" again and the
dict assignment overwrites the second client's record in place: the
store still has length 1 and the stored color is now the new client's
(9,9,9). -/
theorem player_id_collision :
    ((runTrace 0 [conEvA, conEvB, Ev.disconnect "player_0"]).players.map Player.id
       = ["player_1"]) ∧
    (newId (runTrace 0 [conEvA, conEvB, Ev.disconnect "player_0"]) = "player_1") ∧
    ((runTrace 0 [conEvA, conEvB, Ev.disconnect "player_0"]).players.map Player.color
       = [(5, 5, 5)]) ∧
    ((runTrace 0 [conEvA, conEvB, Ev.disconnect "player_0", conEvC]).players.map Player.id
       = ["player_1"]) ∧
    ((runTrace 0 [conEvA, conEvB, Ev.disconnect "player_0", conEvC]).players.map Player.color
       = [(9, 9, 9)]) ∧
    ((runTrace 0 [conEvA, conEvB, Ev.disconnect "player_0", conEvC]).players.length = 1) :=
  ⟨rfl, rfl, rfl, rfl, rfl, rfl⟩

theorem velocity_zero : velocity 0 0 = (0, 0) := by
  have h0 : Real.sqrt ((0:ℝ) ^ 2 + (0:ℝ) ^ 2) = 0 := by
    norm_num [Real.sqrt_zero]
  unfold velocity
  rw [h0]
  rw [if_neg (lt_irrefl 0)]

theorem movePlayer_stationary (p : Player) (hx : p.input_x = 0) (hy : p.input_y = 0)
    (h1 : PLAYER_RADIUS ≤ p.x) (h2 : p.x ≤ GAME_WIDTH - PLAYER_RADIUS)
    (h3 : PLAYER_RADIUS ≤ p.y) (h4 : p.y ≤ GAME_HEIGHT - PLAYER_RADIUS) :
    (movePlayer p).x = p.x ∧ (movePlayer p).y = p.y := by
  rw [movePlayer_x, movePlayer_y, hx, hy, velocity_zero]
  constructor
  · show clamp PLAYER_RADIUS (GAME_WIDTH - PLAYER_RADIUS) (p.x + 0 * TICK_DELTA) = p.x
    rw [show p.x + 0 * TICK_DELTA = p.x by ring]
    unfold clamp
    rw [min_eq_right h2, max_eq_right h1]
  · show clamp PLAYER_RADIUS (GAME_HEIGHT - PLAYER_RADIUS) (p.y + 0 * TICK_DELTA) = p.y
    rw [show p.y + 0 * TICK_DELTA = p.y by ring]
    unfold clamp
    rw [min_eq_right h4, max_eq_right h3]

theorem sqrt20000_not_lt :
    ¬ (Real.sqrt (((200:ℝ) - 100) ^ 2 + ((200:ℝ) - 100) ^ 2) <
        PLAYER_RADIUS + COIN_RADIUS) := by
  have h1 : (((200:ℝ) - 100) ^ 2 + ((200:ℝ) - 100) ^ 2) = 20000 := by norm_num
  rw [h1, show PLAYER_RADIUS + COIN_RADIUS = (40:ℝ) by
    norm_num [PLAYER_RADIUS, COIN_RADIUS]]
  intro hlt
  have h2 : (40:ℝ) ≤ Real.sqrt 20000 := by
    have h3 : (40:ℝ) = Real.sqrt 1600 := by
      rw [show (1600:ℝ) = 40 ^ 2 by norm_num,
        Real.sqrt_sq (by norm_num : (0:ℝ) ≤ 40)]
    rw [h3]
    exact Real.sqrt_le_sqrt (by norm_num)
  linarith

/-- C10: the claim says a Player's score starts at 0, never decreases,
and changes only by +1 per collected coin.  Under traceC10 the second
client's Player ("player_1") collects the 5 initial coins in the tick
and has score 5; the next connect after A's disconnect reuses the id
"player_1" (the C2 id-collision) and overwrites that record with a
fresh score-0 Player, so the score recorded for that Player id drops
from 5 to 0. -/
theorem score_reset_on_id_collision :
    ((runTrace 0 traceC10).players.map (fun p => (p.id, p.score)) = [("player_1", 5)]) ∧
    ((stepState (runTrace 0 traceC10) conEvC).players.map (fun p => (p.id, p.score))
       = [("player_1", 0)]) := by
  have hA := movePlayer_stationary pAdef rfl rfl
    (by norm_num [pAdef, PLAYER_RADIUS])
    (by norm_num [pAdef, PLAYER_RADIUS, GAME_WIDTH])
    (by norm_num [pAdef, PLAYER_RADIUS])
    (by norm_num [pAdef, PLAYER_RADIUS, GAME_HEIGHT])
  have hB := movePlayer_stationary pBdef rfl rfl
    (by norm_num [pBdef, PLAYER_RADIUS])
    (by norm_num [pBdef, PLAYER_RADIUS, GAME_WIDTH])
    (by norm_num [pBdef, PLAYER_RADIUS])
    (by norm_num [pBdef, PLAYER_RADIUS, GAME_HEIGHT])
  have hnA : ∀ n : ℕ, ¬ collides (movePlayer pAdef) (coinAt n) := by
    intro n
    unfold collides
    rw [hA.1, hA.2]
    show ¬ Real.sqrt (((200:ℝ) - 100) ^ 2 + ((200:ℝ) - 100) ^ 2) <
      PLAYER_RADIUS + COIN_RADIUS
    exact sqrt20000_not_lt
  have hcB : ∀ n : ℕ, collides (movePlayer pBdef) (coinAt n) := by
    intro n
    unfold collides
    rw [hB.1, hB.2]
    show Real.sqrt (((200:ℝ) - 200) ^ 2 + ((200:ℝ) - 200) ^ 2) <
      PLAYER_RADIUS + COIN_RADIUS
    norm_num [Real.sqrt_zero, PLAYER_RADIUS, COIN_RADIUS]
  have hfc : ∀ n : ℕ,
      firstColliderIdx [movePlayer pAdef, movePlayer pBdef] (coinAt n) = some 1 := by
    intro n
    simp only [firstColliderIdx]
    rw [if_neg (hnA n), if_pos (hcB n)]
    rfl
  have hfilter0 : csdef.filter
      (fun c => decide
        (firstColliderIdx [movePlayer pAdef, movePlayer pBdef] c = some 0)) = [] := by
    simp [csdef, hfc]
  have hfilter1 : csdef.filter
      (fun c => decide
        (firstColliderIdx [movePlayer pAdef, movePlayer pBdef] c = some 1)) = csdef := by
    simp [csdef, hfc]
  have hlen2 : (collisionScan [movePlayer pAdef, movePlayer pBdef] csdef).1.length = 2 := by
    have h := congrArg List.length
      (collisionScan_posView [movePlayer pAdef, movePlayer pBdef] csdef)
    simpa using h
  have hplayers :
      (collisionScan [movePlayer pAdef, movePlayer pBdef] csdef).1 = [qA, qB] := by
    apply List.ext_getElem?
    intro i
    match i with
    | 0 =>
      rw [collisionScan_get]
      simp only [show ([movePlayer pAdef, movePlayer pBdef][0]?) =
        some (movePlayer pAdef) from rfl, Option.map_some', hfilter0]
      rfl
    | 1 =>
      rw [collisionScan_get]
      simp only [show ([movePlayer pAdef, movePlayer pBdef][1]?) =
        some (movePlayer pBdef) from rfl, Option.map_some', hfilter1]
      rfl
    | (n + 2) =>
      rw [List.getElem?_eq_none (by rw [hlen2]; omega)]
      rfl
  have hremoved : removeCoins csdef
      (collisionScan [movePlayer pAdef, movePlayer pBdef] csdef).2 = [] := by
    rw [removeCoins_scan [movePlayer pAdef, movePlayer pBdef] csdef (by decide)]
    simp [csdef, hfc]
  have hspawn : ¬ ((1:ℝ) - s2def.last_coin_spawn > COIN_SPAWN_INTERVAL) := by
    show ¬ ((1:ℝ) - 0 > COIN_SPAWN_INTERVAL)
    norm_num [COIN_SPAWN_INTERVAL]
  have htick : stepState s2def (Ev.tick 1 0 0) =
      { s2def with players := [qA, qB], coins := [] } := by
    show update_game_state s2def 1 0 0 = _
    unfold update_game_state
    rw [if_neg hspawn]
    show { s2def with
        players := (collisionScan [movePlayer pAdef, movePlayer pBdef] csdef).1,
        coins := removeCoins csdef
          (collisionScan [movePlayer pAdef, movePlayer pBdef] csdef).2 } = _
    rw [hplayers, hremoved]
  have hstate4 : runTrace 0 traceC10 =
      { s2def with players := [qB], coins := [] } := by
    show stepState (stepState (runTrace 0 [conEvA, conEvB2]) (Ev.tick 1 0 0))
        (Ev.disconnect "player_0") = _
    rw [show runTrace 0 [conEvA, conEvB2] = s2def from rfl]
    rw [htick]
    show { s2def with
        players := [qA, qB].filter (fun p => !(p.id == "player_0")),
        coins := ([] : List Coin) } = _
    rw [show [qA, qB].filter (fun p => !(p.id == "player_0")) = [qB] from rfl]
  constructor
  · rw [hstate4]
    rfl
  · rw [hstate4]
    rfl
